import Mathlib

/-!
Shallow embedding of the backtest engine and parameter-sweep optimizer of
the commodity trading dashboard (source files src/backtest_engine.py,
src/utils.py, src/optimizer.py).  Prices and indicator values are
modelled as rationals, the bar series as a list, the per-bar trade state
machine as a fold over that list, and Python exceptions as Except values.
-/

namespace CommodityTrading

/-- Trade direction, the engine's `direction` parameter. -/
inductive Direction where
  | long
  | short
deriving DecidableEq, Repr

/-- The exit reason strings recorded by the engine. -/
inductive ExitReason where
  | time_exit
  | stop_loss
  | take_profit
  | end_of_data
deriving DecidableEq, Repr

/-- One row of the input series: the OHLC fields and the ATR column the
engine reads (high, low, close, and the configured ATR column). -/
structure Bar where
  high : ℚ
  low : ℚ
  close : ℚ
  atr : ℚ
deriving DecidableEq, Repr

/-- The mutable fields of a `Trade` while the position is open
(`entry_idx`, `entry_price`, `stop_loss`, `take_profit`); the direction
lives in the engine configuration. -/
structure OpenTrade where
  entry_idx : ℕ
  entry_price : ℚ
  stop_loss : ℚ
  take_profit : ℚ
deriving DecidableEq, Repr

/-- A closed `Trade` as appended to `self.trades`: every exit field is
populated.  MAE/MFE and the timestamp fields are omitted; no claim
mentions them. -/
structure ClosedTrade where
  entry_idx : ℕ
  entry_price : ℚ
  stop_loss : ℚ
  take_profit : ℚ
  exit_idx : ℕ
  exit_price : ℚ
  exit_reason : ExitReason
  pnl : ℚ
  bars_held : ℕ
deriving DecidableEq, Repr

/-- The `BacktestEngine` constructor parameters that govern the state
machine. -/
structure EngineConfig where
  direction : Direction
  stop_loss_atr : ℚ
  take_profit_atr : ℚ
  max_hold_bars : Option ℕ
  breakeven_at_tp1 : Bool
deriving DecidableEq, Repr

/-- `BacktestEngine.calculate_stop_and_target`: stop and target levels
from the entry close of the bar and its ATR. -/
def calculate_stop_and_target (cfg : EngineConfig) (bar : Bar) : ℚ × ℚ :=
  match cfg.direction with
  | .long =>
      (bar.close - cfg.stop_loss_atr * bar.atr, bar.close + cfg.take_profit_atr * bar.atr)
  | .short =>
      (bar.close + cfg.stop_loss_atr * bar.atr, bar.close - cfg.take_profit_atr * bar.atr)

/-- The time-based exit condition of `check_exit`:
`max_hold_bars is not None and bars_held >= max_hold_bars`. -/
def timeExitHit (maxHold : Option ℕ) (barsHeld : ℕ) : Bool :=
  match maxHold with
  | none => false
  | some m => decide (m ≤ barsHeld)

/-- `BacktestEngine.check_exit` at bar `idx` for the open trade `t`.
Returns the optional exit `(reason, exit_price)` together with the stop
level after the call; the second component reflects the in-place update
of `current_trade.stop_loss` performed by the breakeven branch. -/
def check_exit (cfg : EngineConfig) (bar : Bar) (idx : ℕ) (t : OpenTrade) :
    Option (ExitReason × ℚ) × ℚ :=
  let bars_held := idx - t.entry_idx
  if timeExitHit cfg.max_hold_bars bars_held then
    (some (.time_exit, bar.close), t.stop_loss)
  else
    match cfg.direction with
    | .long =>
      if bar.low ≤ t.stop_loss then
        (some (.stop_loss, t.stop_loss), t.stop_loss)
      else if t.take_profit ≤ bar.high then
        (some (.take_profit, t.take_profit), t.stop_loss)
      else if cfg.breakeven_at_tp1 &&
          decide (t.entry_price + (t.take_profit - t.entry_price) / 2 ≤ bar.high) &&
          decide (t.stop_loss < t.entry_price) then
        (none, t.entry_price)
      else
        (none, t.stop_loss)
    | .short =>
      if t.stop_loss ≤ bar.high then
        (some (.stop_loss, t.stop_loss), t.stop_loss)
      else if bar.low ≤ t.take_profit then
        (some (.take_profit, t.take_profit), t.stop_loss)
      else if cfg.breakeven_at_tp1 &&
          decide (bar.low ≤ t.entry_price - (t.entry_price - t.take_profit) / 2) &&
          decide (t.entry_price < t.stop_loss) then
        (none, t.entry_price)
      else
        (none, t.stop_loss)

/-- Closing an open trade at bar `idx` with the given reason and exit
price: fills the exit fields and the directional PnL exactly as the body
of `BacktestEngine.run` does. -/
def close_trade (cfg : EngineConfig) (t : OpenTrade) (idx : ℕ) (reason : ExitReason)
    (price : ℚ) : ClosedTrade :=
  { entry_idx := t.entry_idx
    entry_price := t.entry_price
    stop_loss := t.stop_loss
    take_profit := t.take_profit
    exit_idx := idx
    exit_price := price
    exit_reason := reason
    pnl :=
      match cfg.direction with
      | .long => price - t.entry_price
      | .short => t.entry_price - price
    bars_held := idx - t.entry_idx }

/-- The engine state threaded through the main loop of
`BacktestEngine.run`: the closed trades so far and the open position
(`in_trade` corresponds to `open_trade = some t`). -/
structure EngineState where
  trades : List ClosedTrade
  open_trade : Option OpenTrade
deriving DecidableEq, Repr

/-- Opening a position at bar `idx`: entry price is the close of the
bar, stop and target come from `calculate_stop_and_target`. -/
def open_at (cfg : EngineConfig) (bar : Bar) (idx : ℕ) : OpenTrade :=
  let st := calculate_stop_and_target cfg bar
  { entry_idx := idx, entry_price := bar.close, stop_loss := st.1, take_profit := st.2 }

/-- One iteration of the main loop of `BacktestEngine.run` at bar `idx`:
first the exit check when a position is open, then the entry check when
no position is open after that. -/
def step (cfg : EngineConfig) (bar : Bar) (signal : Bool) (idx : ℕ)
    (s : EngineState) : EngineState :=
  let s1 : EngineState :=
    match s.open_trade with
    | none => s
    | some t =>
      match check_exit cfg bar idx t with
      | (some (reason, price), _) =>
          { trades := s.trades ++ [close_trade cfg t idx reason price], open_trade := none }
      | (none, newStop) =>
          { trades := s.trades, open_trade := some { t with stop_loss := newStop } }
  match s1.open_trade with
  | some _ => s1
  | none => if signal then { s1 with open_trade := some (open_at cfg bar idx) } else s1

/-- The main loop of `BacktestEngine.run`, folding `step` over the bars
paired positionally with the entry-signal sequence, carrying the bar
index. -/
def runLoop (cfg : EngineConfig) : List Bar → List Bool → ℕ → EngineState → EngineState
  | [], _, _, s => s
  | _ :: _, [], _, s => s
  | bar :: bars, sig :: sigs, idx, s => runLoop cfg bars sigs (idx + 1) (step cfg bar sig idx s)

/-- `BacktestEngine.run`: execute the main loop from the first bar and
force-close any position still open at the last bar with reason
`end_of_data` at the close of that bar. -/
def run (cfg : EngineConfig) (bars : List Bar) (signals : List Bool) : List ClosedTrade :=
  let s := runLoop cfg bars signals 0 { trades := [], open_trade := none }
  match s.open_trade, bars.getLast? with
  | some t, some lastBar =>
      s.trades ++ [close_trade cfg t (bars.length - 1) .end_of_data lastBar.close]
  | _, _ => s.trades

/-! ### Summary statistics (src/utils.py create_summary_stats, BacktestEngine.get_summary) -/

/-- The value of the profit-factor statistic: a rational, or the float
infinity the source produces when there are winners and no losers. -/
inductive PFValue where
  | finite (q : ℚ)
  | inf
deriving DecidableEq, Repr

/-- The summary dictionary of `create_summary_stats`.  Every key is a
field; the zero-trade early returns of the source populate the missing
keys with zero here. -/
structure SummaryStats where
  total_trades : ℕ
  winning_trades : ℕ
  losing_trades : ℕ
  win_rate : ℚ
  profit_factor : PFValue
  avg_win : ℚ
  avg_loss : ℚ
  max_dd : ℚ
  max_dd_pct : ℚ
  total_pnl : ℚ
  avg_pnl_per_trade : ℚ
deriving DecidableEq, Repr

/-- The all-zero summary returned for a run with no trades. -/
def zeroSummary : SummaryStats :=
  { total_trades := 0, winning_trades := 0, losing_trades := 0, win_rate := 0,
    profit_factor := .finite 0, avg_win := 0, avg_loss := 0, max_dd := 0,
    max_dd_pct := 0, total_pnl := 0, avg_pnl_per_trade := 0 }

/-- PnL values of the winning trades (`results[results.pnl > 0]`). -/
def winningPnls (results : List ClosedTrade) : List ℚ :=
  (results.map ClosedTrade.pnl).filter fun q => decide (0 < q)

/-- PnL values of the losing trades (`results[results.pnl < 0]`). -/
def losingPnls (results : List ClosedTrade) : List ℚ :=
  (results.map ClosedTrade.pnl).filter fun q => decide (q < 0)

/-- Running cumulative sum (`Series.cumsum`). -/
def cumsumFrom (acc : ℚ) : List ℚ → List ℚ
  | [] => []
  | x :: xs => (acc + x) :: cumsumFrom (acc + x) xs

/-- `results.pnl.cumsum()`. -/
def cumsum (l : List ℚ) : List ℚ := cumsumFrom 0 l

/-- Helper for the expanding maximum. -/
def prefixMaxFrom (cur : ℚ) : List ℚ → List ℚ
  | [] => []
  | x :: xs => max cur x :: prefixMaxFrom (max cur x) xs

/-- `equity_curve.expanding().max()`. -/
def prefixMax : List ℚ → List ℚ
  | [] => []
  | x :: xs => x :: prefixMaxFrom x xs

/-- Minimum of a series (`Series.min`), zero on the empty list. -/
def listMin : List ℚ → ℚ
  | [] => 0
  | x :: xs => xs.foldl min x

/-- The profit-factor line of `create_summary_stats`:
`total_wins / total_losses` when there are losses, infinity when there
are wins and no losses, zero otherwise. -/
def profit_factor_of (total_wins total_losses : ℚ) : PFValue :=
  if 0 < total_losses then .finite (total_wins / total_losses)
  else if 0 < total_wins then .inf
  else .finite 0

/-- `utils.create_summary_stats`: summary statistics of a trade list. -/
def create_summary_stats (results : List ClosedTrade) : SummaryStats :=
  if results.length = 0 then zeroSummary
  else
    let pnls := results.map ClosedTrade.pnl
    let winners := winningPnls results
    let losers := losingPnls results
    let total_wins := winners.sum
    let total_losses := |losers.sum|
    let profit_factor : PFValue := profit_factor_of total_wins total_losses
    let equity := cumsum pnls
    let running_max := prefixMax equity
    let drawdown := List.zipWith (· - ·) equity running_max
    let max_dd := listMin drawdown
    let dd_idx := drawdown.findIdx (· == max_dd)
    let peak := (running_max[dd_idx]?).getD 1
    let max_dd_pct := if peak ≠ 0 then |max_dd / peak * 100| else 0
    { total_trades := results.length
      winning_trades := winners.length
      losing_trades := losers.length
      win_rate := (winners.length : ℚ) / (results.length : ℚ) * 100
      profit_factor := profit_factor
      avg_win := if winners.length = 0 then 0 else winners.sum / (winners.length : ℚ)
      avg_loss := if losers.length = 0 then 0 else losers.sum / (losers.length : ℚ)
      max_dd := max_dd
      max_dd_pct := max_dd_pct
      total_pnl := pnls.sum
      avg_pnl_per_trade := pnls.sum / (results.length : ℚ) }

/-- `BacktestEngine.get_summary`: the zero dictionary for an empty trade
list, otherwise `create_summary_stats` on the trades.  The additional
average-MAE/MFE/bars-held keys are omitted; no claim mentions them. -/
def get_summary (trades : List ClosedTrade) : SummaryStats :=
  if trades.length = 0 then zeroSummary
  else create_summary_stats trades

/-! ### Optimizer (src/optimizer.py) -/

/-- One parameter combination of the grid (`params` dictionary built in
`generate_parameter_grid`). -/
structure ParamSet where
  stop_loss_atr : ℚ
  take_profit_atr : ℚ
  max_hold_bars : Option ℕ
  trend_condition : Option String
  rsi_min : Option ℚ
  adx_min : Option ℚ
  atr_min : Option ℚ
  atr_max : Option ℚ
  ema_proximity : Option ℚ
  volume_min : Option ℚ
deriving DecidableEq, Repr

/-- The `why` codes of the diagnostic records, with the exception
message attached to the `error` code. -/
inductive FailReason where
  | no_trades
  | insufficient_trades
  | pf_fail
  | dd_fail
  | error (msg : String)
deriving DecidableEq, Repr

/-- A rejection diagnostic produced by `_evaluate_combination`. -/
structure Diagnostic where
  params : ParamSet
  why : FailReason
deriving DecidableEq, Repr

/-- A surviving optimization result: the parameter set together with the
summary metrics copied into the result dictionary. -/
structure OptResult where
  params : ParamSet
  trades : ℕ
  win_rate : ℚ
  profit_factor : PFValue
  max_dd_pct : ℚ
  total_pnl : ℚ
  avg_pnl_per_trade : ℚ
deriving DecidableEq, Repr

/-- The admission thresholds read from the configuration. -/
structure OptimizerConfig where
  min_trades : ℕ
  min_profit_factor : ℚ
  max_drawdown_pct : ℚ
deriving DecidableEq, Repr

/-- Strict order on profit-factor values, mirroring float comparison
with infinity. -/
def pfLt (a b : PFValue) : Bool :=
  match a, b with
  | .finite x, .finite y => decide (x < y)
  | .finite _, .inf => true
  | .inf, _ => false

/-- `_evaluate_combination`: evaluate one candidate.  The fallible part
of its try block — building the entry conditions with
`create_pattern_strategy` and running the engine — is the `runStrategy`
argument returning `Except`; the except clause of the source becomes the
`.error` branch, so the function itself is total. -/
def evaluate_combination (cfg : OptimizerConfig)
    (runStrategy : ParamSet → Except String (List ClosedTrade)) (params : ParamSet) :
    Option OptResult × Option Diagnostic :=
  match runStrategy params with
  | .error e => (none, some { params := params, why := .error e })
  | .ok trades =>
    if trades.length = 0 then
      (none, some { params := params, why := .no_trades })
    else
      let summary := get_summary trades
      if summary.total_trades < cfg.min_trades then
        (none, some { params := params, why := .insufficient_trades })
      else if pfLt summary.profit_factor (.finite cfg.min_profit_factor) then
        (none, some { params := params, why := .pf_fail })
      else if cfg.max_drawdown_pct < summary.max_dd_pct then
        (none, some { params := params, why := .dd_fail })
      else
        (some { params := params, trades := summary.total_trades,
                win_rate := summary.win_rate, profit_factor := summary.profit_factor,
                max_dd_pct := summary.max_dd_pct, total_pnl := summary.total_pnl,
                avg_pnl_per_trade := summary.avg_pnl_per_trade }, none)

/-- The per-field ranges `generate_parameter_grid` reads from the
optimization configuration. -/
structure GridRanges where
  stop_loss_range : List ℚ
  take_profit_range : List ℚ
  max_hold_bars_range : List (Option ℕ)
  trend_conditions : List (Option String)
  rsi_min_range : List (Option ℚ)
  adx_min_range : List (Option ℚ)
  atr_min_range : List (Option ℚ)
  atr_max_range : List (Option ℚ)
  ema_proximity_range : List (Option ℚ)
  volume_ratio_range : List (Option ℚ)
deriving Repr

/-- `itertools.product` over the ten ranges, in the iteration order of
the source. -/
def allCombos (R : GridRanges) : List ParamSet :=
  R.stop_loss_range.flatMap fun sl =>
  R.take_profit_range.flatMap fun tp =>
  R.max_hold_bars_range.flatMap fun mh =>
  R.trend_conditions.flatMap fun tc =>
  R.rsi_min_range.flatMap fun rm =>
  R.adx_min_range.flatMap fun am =>
  R.atr_min_range.flatMap fun atmin =>
  R.atr_max_range.flatMap fun atmax =>
  R.ema_proximity_range.flatMap fun ep =>
  R.volume_ratio_range.map fun vm =>
    { stop_loss_atr := sl, take_profit_atr := tp, max_hold_bars := mh,
      trend_condition := tc, rsi_min := rm, adx_min := am, atr_min := atmin,
      atr_max := atmax, ema_proximity := ep, volume_min := vm }

/-- The two pruning guards of `generate_parameter_grid`: a combination
is kept unless both ATR bounds are set with `atr_min >= atr_max`, or
`rsi_min` is set with `rsi_min >= 70`. -/
def validCombo (p : ParamSet) : Bool :=
  (match p.atr_min, p.atr_max with
   | some a, some b => decide (a < b)
   | _, _ => true) &&
  (match p.rsi_min with
   | some r => decide (r < 70)
   | none => true)

/-- The collection loop of `generate_parameter_grid`: append valid
combinations in order and break as soon as the grid holds `cap2`
(twice the configured cap) entries. -/
def collectValid (cap2 : ℕ) : List ParamSet → List ParamSet → List ParamSet
  | [], acc => acc
  | p :: rest, acc =>
    if validCombo p then
      let acc2 := acc ++ [p]
      if cap2 ≤ acc2.length then acc2 else collectValid cap2 rest acc2
    else
      collectValid cap2 rest acc

/-- `PatternOptimizer.generate_parameter_grid`.  The unweighted random
sample drawn with `np.random.choice(len(grid), size=max_combos,
replace=False)` is modelled by the index list `sample_indices`; when the
grid exceeds the cap the generator returns the grid entries at those
indices. -/
def generate_parameter_grid (R : GridRanges) (max_combos : ℕ)
    (sample_indices : List ℕ) : List ParamSet :=
  let grid := collectValid (max_combos * 2) (allCombos R) []
  if max_combos < grid.length then
    sample_indices.filterMap fun i => grid[i]?
  else
    grid

/-- Profit-factor component of the descending sort key: infinity sorts
before every finite value, larger finite values before smaller ones. -/
def pfKeyDesc : PFValue → WithBot ℚ
  | .inf => ⊥
  | .finite q => ((-q : ℚ) : WithBot ℚ)

/-- The sort key of `sort_values(by trades, profit_factor, win_rate,
max_dd_pct, ascending=[False, False, False, True])`: a lexicographic
key with the descending components negated. -/
def rankKey (r : OptResult) : Lex (ℤ × Lex (WithBot ℚ × Lex (ℚ × ℚ))) :=
  toLex (-(r.trades : ℤ),
    toLex (pfKeyDesc r.profit_factor, toLex (-r.win_rate, r.max_dd_pct)))

/-- Comparator of the final ranking. -/
def rankLE (a b : OptResult) : Bool := decide (rankKey a ≤ rankKey b)

/-- The ranking order in the words of the spec: trade count descending,
then profit factor descending, then win rate descending, then max
drawdown ascending. -/
def RankOrder (a b : OptResult) : Prop :=
  b.trades < a.trades ∨
    (a.trades = b.trades ∧ (pfLt b.profit_factor a.profit_factor = true ∨
      (a.profit_factor = b.profit_factor ∧ (b.win_rate < a.win_rate ∨
        (a.win_rate = b.win_rate ∧ a.max_dd_pct ≤ b.max_dd_pct)))))

/-- The `sort_values` call of `PatternOptimizer.optimize`. -/
def sortResults (rs : List OptResult) : List OptResult := rs.mergeSort rankLE

/-- The result/diagnostic separation loop of the multiprocessing branch
of `PatternOptimizer.optimize`, over the outcome list of `pool.map`. -/
def collectOutcomes (outcomes : List (Option OptResult × Option Diagnostic)) :
    List OptResult × List Diagnostic :=
  outcomes.foldl
    (fun acc rd =>
      ((match rd.1 with | some r => acc.1 ++ [r] | none => acc.1),
       (match rd.2 with | some d => acc.2 ++ [d] | none => acc.2)))
    ([], [])

/-- The multiprocessing branch of `PatternOptimizer.optimize`:
`pool.map` applies the evaluation to every candidate and returns the
outcomes in input order (its documented semantics, independent of chunk
size), after which results and diagnostics are separated. -/
def optimize_parallel (evalFn : ParamSet → Option OptResult × Option Diagnostic)
    (grid : List ParamSet) : List OptResult × List Diagnostic :=
  collectOutcomes (grid.map evalFn)

/-- The sequential branch of `PatternOptimizer.optimize`: evaluate the
candidates one by one in order, accumulating results and diagnostics. -/
def optimize_sequential (evalFn : ParamSet → Option OptResult × Option Diagnostic)
    (grid : List ParamSet) : List OptResult × List Diagnostic :=
  grid.foldl
    (fun acc p =>
      let rd := evalFn p
      ((match rd.1 with | some r => acc.1 ++ [r] | none => acc.1),
       (match rd.2 with | some d => acc.2 ++ [d] | none => acc.2)))
    ([], [])

/-- `PatternOptimizer.optimize` up to the ranking step, with the mode
flag `use_multiprocessing`. -/
def optimize_run (use_multiprocessing : Bool)
    (evalFn : ParamSet → Option OptResult × Option Diagnostic)
    (grid : List ParamSet) : List OptResult × List Diagnostic :=
  if use_multiprocessing then optimize_parallel evalFn grid
  else optimize_sequential evalFn grid

/-- The ranked result list returned by `PatternOptimizer.optimize`. -/
def optimize_ranked (use_multiprocessing : Bool)
    (evalFn : ParamSet → Option OptResult × Option Diagnostic)
    (grid : List ParamSet) : List OptResult :=
  sortResults (optimize_run use_multiprocessing evalFn grid).1

/-! ### Theorems -/

/-- The stop-loss breach condition of `check_exit` (long: bar low at or
below the stop; short: bar high at or above the stop). -/
def stopHit (d : Direction) (bar : Bar) (t : OpenTrade) : Bool :=
  match d with
  | .long => decide (bar.low ≤ t.stop_loss)
  | .short => decide (t.stop_loss ≤ bar.high)

/-- The take-profit breach condition of `check_exit` (long: bar high at
or above the target; short: bar low at or below the target). -/
def tpHit (d : Direction) (bar : Bar) (t : OpenTrade) : Bool :=
  match d with
  | .long => decide (t.take_profit ≤ bar.high)
  | .short => decide (bar.low ≤ t.take_profit)

/-- Claim C1: on a bar with an open position the exit conditions are
checked in the fixed priority order time exit, stop loss, take profit;
the first true condition fires the single exit of the bar (the result is
one optional exit, so two exits can never fire on one bar), and when the
time limit and the take-profit level are reached on the same bar the
recorded reason is the time exit. -/
theorem check_exit_priority (cfg : EngineConfig) (bar : Bar) (idx : ℕ) (t : OpenTrade) :
    (timeExitHit cfg.max_hold_bars (idx - t.entry_idx) = true →
      check_exit cfg bar idx t = (some (.time_exit, bar.close), t.stop_loss)) ∧
    (timeExitHit cfg.max_hold_bars (idx - t.entry_idx) = false →
      stopHit cfg.direction bar t = true →
      check_exit cfg bar idx t = (some (.stop_loss, t.stop_loss), t.stop_loss)) ∧
    (timeExitHit cfg.max_hold_bars (idx - t.entry_idx) = false →
      stopHit cfg.direction bar t = false →
      tpHit cfg.direction bar t = true →
      check_exit cfg bar idx t = (some (.take_profit, t.take_profit), t.stop_loss)) := by
  refine ⟨fun h1 => ?_, fun h1 h2 => ?_, fun h1 h2 h3 => ?_⟩
  · simp [check_exit, h1]
  · cases hd : cfg.direction <;> rw [hd] at h2 <;>
      simp only [stopHit, decide_eq_true_eq] at h2 <;>
      simp [check_exit, h1, h2, hd]
  · cases hd : cfg.direction <;> rw [hd] at h2 h3 <;>
      simp only [stopHit, tpHit, decide_eq_true_eq, decide_eq_false_iff_not] at h2 h3 <;>
      simp [check_exit, h1, h2, h3, hd]

/-- A scenario-C instance for `check_exit_priority`: with
`max_hold_bars = 2` and two bars held, a bar whose high also reaches the
take-profit level exits with reason `time_exit` at the bar close. -/
theorem check_exit_priority_witness :
    check_exit
        { direction := .long, stop_loss_atr := 2, take_profit_atr := 3,
          max_hold_bars := some 2, breakeven_at_tp1 := false }
        { high := 104, low := 100, close := 104, atr := 1 } 2
        { entry_idx := 0, entry_price := 100, stop_loss := 98, take_profit := 103 } =
      (some (.time_exit, 104), 98) :=
  (check_exit_priority _ _ 2 _).1 (by decide)

/-- The exception message used in concrete instances below. -/
def errMsg : String := "division by zero"

/-- Claim C5: an exception raised while building entry conditions or
simulating one candidate (the `runStrategy` computation) is caught
inside `evaluate_combination` and becomes a diagnostic with reason code
`error` and the exception message; the evaluation always returns a plain
outcome pair, so one failing candidate never aborts the sweep. -/
theorem evaluate_combination_error_contained (cfg : OptimizerConfig)
    (runStrategy : ParamSet → Except String (List ClosedTrade)) (p : ParamSet)
    (e : String) (h : runStrategy p = .error e) :
    evaluate_combination cfg runStrategy p =
      (none, some { params := p, why := .error e }) := by
  simp [evaluate_combination, h]

/-- A default parameter set used in concrete instances. -/
def paramDefault : ParamSet :=
  { stop_loss_atr := 2, take_profit_atr := 3, max_hold_bars := none,
    trend_condition := none, rsi_min := none, adx_min := none, atr_min := none,
    atr_max := none, ema_proximity := none, volume_min := none }

/-- Concrete instance for `evaluate_combination_error_contained`: a
candidate whose simulation raises is converted into an error
diagnostic. -/
theorem evaluate_combination_error_contained_witness :
    evaluate_combination
        { min_trades := 10, min_profit_factor := 5 / 4, max_drawdown_pct := 15 }
        (fun _ => .error errMsg) paramDefault =
      (none, some { params := paramDefault, why := .error errMsg }) :=
  evaluate_combination_error_contained _ _ paramDefault errMsg rfl

/-- Claim C9: with the breakeven rule enabled, once price reaches the
halfway point toward the target on a bar that fires no exit, the stop is
moved to the entry price; the stop is never loosened in either
direction; a bar on which the stop changes fires no exit; and the
updated stop is the one carried into the state used for the next bar. -/
theorem breakeven_ratchet (cfg : EngineConfig) (bar : Bar) (idx : ℕ) (t : OpenTrade) :
    (cfg.direction = .long → cfg.breakeven_at_tp1 = true →
      (check_exit cfg bar idx t).1 = none →
      t.entry_price + (t.take_profit - t.entry_price) / 2 ≤ bar.high →
      t.stop_loss < t.entry_price →
      (check_exit cfg bar idx t).2 = t.entry_price) ∧
    (cfg.direction = .short → cfg.breakeven_at_tp1 = true →
      (check_exit cfg bar idx t).1 = none →
      bar.low ≤ t.entry_price - (t.entry_price - t.take_profit) / 2 →
      t.entry_price < t.stop_loss →
      (check_exit cfg bar idx t).2 = t.entry_price) ∧
    (cfg.direction = .long → t.stop_loss ≤ (check_exit cfg bar idx t).2) ∧
    (cfg.direction = .short → (check_exit cfg bar idx t).2 ≤ t.stop_loss) ∧
    ((check_exit cfg bar idx t).2 ≠ t.stop_loss → (check_exit cfg bar idx t).1 = none) ∧
    (∀ (s : EngineState) (u : OpenTrade) (sig : Bool), s.open_trade = some u →
      (check_exit cfg bar idx u).1 = none →
      (step cfg bar sig idx s).open_trade =
        some { u with stop_loss := (check_exit cfg bar idx u).2 }) := by
  refine ⟨fun hd hb h1 h2 h3 => ?_, fun hd hb h1 h2 h3 => ?_, fun hd => ?_, fun hd => ?_,
    fun h => ?_, fun s u sig hs hce => ?_⟩
  · simp only [check_exit, hd] at h1 ⊢
    split_ifs at h1 ⊢ with ha hb1 hc <;> simp_all
  · simp only [check_exit, hd] at h1 ⊢
    split_ifs at h1 ⊢ with ha hb1 hc <;> simp_all
  · simp only [check_exit, hd]
    split_ifs with ha hb1 hc <;> (simp_all; try linarith)
  · simp only [check_exit, hd]
    split_ifs with ha hb1 hc <;> (simp_all; try linarith)
  · have hdis : (check_exit cfg bar idx t).1 = none ∨
        (check_exit cfg bar idx t).2 = t.stop_loss := by
      cases hd : cfg.direction <;> simp only [check_exit, hd] <;> split_ifs <;> simp
    rcases hdis with h1 | h2
    · exact h1
    · exact absurd h2 h
  · rcases hpair : check_exit cfg bar idx u with ⟨o, ns⟩
    rcases o with _ | ex
    · simp [step, hs, hpair]
    · rw [hpair] at hce; simp at hce

/-- Concrete instance for `breakeven_ratchet`: a long trade entered at
100 with target 103; a bar with high 102 (beyond the halfway point
101.5) and low 99 ratchets the stop from 98 to 100 and fires no exit. -/
theorem breakeven_ratchet_witness :
    (check_exit
        { direction := .long, stop_loss_atr := 2, take_profit_atr := 3,
          max_hold_bars := none, breakeven_at_tp1 := true }
        { high := 102, low := 99, close := 101, atr := 1 } 1
        { entry_idx := 0, entry_price := 100, stop_loss := 98, take_profit := 103 }).2 =
      100 ∧
    (check_exit
        { direction := .long, stop_loss_atr := 2, take_profit_atr := 3,
          max_hold_bars := none, breakeven_at_tp1 := true }
        { high := 102, low := 99, close := 101, atr := 1 } 1
        { entry_idx := 0, entry_price := 100, stop_loss := 98, take_profit := 103 }).1 =
      none :=
  ⟨(breakeven_ratchet _ _ 1 _).1 rfl rfl (by with_unfolding_all decide)
      (by with_unfolding_all decide) (by with_unfolding_all decide),
   (breakeven_ratchet _ _ 1 _).2.2.2.2.1 (by with_unfolding_all decide)⟩

/-- Sum of a nonempty list of negative rationals is negative. -/
lemma sum_neg_of_mem {l : List ℚ} (h : ∀ x ∈ l, x < 0) (hne : l ≠ []) : l.sum < 0 := by
  induction l with
  | nil => exact absurd rfl hne
  | cons x xs ih =>
    rcases eq_or_ne xs [] with h1 | h1
    · subst h1; simpa using h x (by simp)
    · have hxs := ih (fun y hy => h y (by simp [hy])) h1
      have hx := h x (by simp)
      simp only [List.sum_cons]
      linarith

/-- Claim C3: for a trade list with at least one loser the profit factor
is the sum of winning PnL divided by the absolute value of the sum of
losing PnL; with at least one winner and no losers it is the unbounded
(infinite) value; and for a run with zero trades every summary statistic
is zero (`get_summary` is a total function, so the engine never raises
on a no-trade run). -/
theorem summary_stats_law (trades : List ClosedTrade) :
    (losingPnls trades ≠ [] →
      (create_summary_stats trades).profit_factor =
        .finite ((winningPnls trades).sum / |(losingPnls trades).sum|)) ∧
    (winningPnls trades ≠ [] → losingPnls trades = [] →
      (create_summary_stats trades).profit_factor = .inf) ∧
    ((get_summary []).total_trades = 0 ∧ (get_summary []).win_rate = 0 ∧
      (get_summary []).profit_factor = .finite 0 ∧ (get_summary []).max_dd_pct = 0 ∧
      (get_summary []).total_pnl = 0) := by
  refine ⟨fun hl => ?_, fun hw hl => ?_, ⟨rfl, rfl, rfl, rfl, rfl⟩⟩
  · have h0 : ∀ x ∈ losingPnls trades, x < 0 := by
      intro x hx
      simpa using List.of_mem_filter hx
    have hneg : (losingPnls trades).sum < 0 := sum_neg_of_mem h0 hl
    have habs : 0 < |(losingPnls trades).sum| := abs_pos.mpr (ne_of_lt hneg)
    have htr : ¬trades.length = 0 := by
      intro h
      rw [List.length_eq_zero] at h
      subst h
      simp [losingPnls] at hl
    have hproj : (create_summary_stats trades).profit_factor =
        profit_factor_of (winningPnls trades).sum |(losingPnls trades).sum| := by
      simp [create_summary_stats, htr]
    rw [hproj, profit_factor_of, if_pos habs]
  · have h0 : ∀ x ∈ winningPnls trades, 0 < x := by
      intro x hx
      simpa using List.of_mem_filter hx
    have hpos : 0 < (winningPnls trades).sum := List.sum_pos _ h0 hw
    have htr : ¬trades.length = 0 := by
      intro h
      rw [List.length_eq_zero] at h
      subst h
      simp [winningPnls] at hw
    have habs : ¬(0 < |(losingPnls trades).sum|) := by
      rw [hl]
      simp
    have hproj : (create_summary_stats trades).profit_factor =
        profit_factor_of (winningPnls trades).sum |(losingPnls trades).sum| := by
      simp [create_summary_stats, htr]
    rw [hproj, profit_factor_of, if_neg habs, if_pos hpos]

/-- A winning trade fixture (PnL 3). -/
def tradeWin : ClosedTrade :=
  { entry_idx := 0, entry_price := 100, stop_loss := 98, take_profit := 103,
    exit_idx := 3, exit_price := 103, exit_reason := .take_profit, pnl := 3,
    bars_held := 3 }

/-- A losing trade fixture (PnL -2). -/
def tradeLoss : ClosedTrade :=
  { entry_idx := 5, entry_price := 100, stop_loss := 98, take_profit := 103,
    exit_idx := 7, exit_price := 98, exit_reason := .stop_loss, pnl := -2,
    bars_held := 2 }

/-- Concrete instance for `summary_stats_law`: one winner of 3 and one
loser of -2 give profit factor 3/2; a single winner and no losers give
the unbounded profit factor. -/
theorem summary_stats_law_witness :
    (create_summary_stats [tradeWin, tradeLoss]).profit_factor = .finite (3 / 2) ∧
    (create_summary_stats [tradeWin]).profit_factor = .inf :=
  ⟨((summary_stats_law [tradeWin, tradeLoss]).1 (by with_unfolding_all decide)).trans
      (by with_unfolding_all decide),
   (summary_stats_law [tradeWin]).2.1 (by with_unfolding_all decide)
      (by with_unfolding_all decide)⟩

/-- The profit-factor sort key reverses the profit-factor order, with
infinity first. -/
lemma pfKeyDesc_lt_iff (a b : PFValue) : pfKeyDesc a < pfKeyDesc b ↔ pfLt b a = true := by
  cases a <;> cases b <;>
    simp [pfKeyDesc, pfLt, WithBot.bot_lt_coe, WithBot.coe_lt_coe]

/-- The profit-factor sort key is injective. -/
lemma pfKeyDesc_inj (a b : PFValue) : pfKeyDesc a = pfKeyDesc b ↔ a = b := by
  cases a <;> cases b <;> simp [pfKeyDesc, WithBot.coe_eq_coe]

/-- The comparator of `sortResults` holds exactly when the spec order
(trades descending, profit factor descending, win rate descending,
drawdown ascending) holds. -/
lemma rankLE_iff (a b : OptResult) : rankLE a b = true ↔ RankOrder a b := by
  unfold rankLE rankKey RankOrder
  rw [decide_eq_true_eq, Prod.Lex.le_iff]
  simp only [Prod.Lex.le_iff, neg_lt_neg_iff, neg_inj, Nat.cast_lt, Nat.cast_inj,
    pfKeyDesc_lt_iff, pfKeyDesc_inj]

/-- The ranking comparator is total. -/
lemma rankLE_total (a b : OptResult) : (rankLE a b || rankLE b a) = true := by
  simp only [rankLE, Bool.or_eq_true, decide_eq_true_eq]
  exact le_total _ _

/-- The ranking comparator is transitive. -/
lemma rankLE_trans (a b c : OptResult) (h1 : rankLE a b = true) (h2 : rankLE b c = true) :
    rankLE a c = true := by
  simp only [rankLE, decide_eq_true_eq] at h1 h2 ⊢
  exact le_trans h1 h2

/-- Claim C6: the ranked list returned by the optimizer is exactly the
survivor set (a permutation of it) arranged in the lexicographic order
trade count descending, profit factor descending, win rate descending,
max drawdown ascending. -/
theorem optimizer_ranking_sorted (rs : List OptResult) :
    (sortResults rs).Perm rs ∧ List.Pairwise RankOrder (sortResults rs) := by
  constructor
  · exact List.mergeSort_perm rs rankLE
  · exact (List.sorted_mergeSort rankLE_trans rankLE_total rs).imp
      fun h => (rankLE_iff _ _).mp h

/-- Claim C7: the sequential branch and the multiprocessing branch of
the optimizer produce identical survivor and diagnostic lists, and hence
identical rankings, for every evaluation function and candidate grid
(`pool.map` returns the per-candidate outcomes in input order). -/
theorem optimize_modes_agree (evalFn : ParamSet → Option OptResult × Option Diagnostic)
    (grid : List ParamSet) :
    optimize_run true evalFn grid = optimize_run false evalFn grid ∧
    optimize_ranked true evalFn grid = optimize_ranked false evalFn grid := by
  have h : optimize_parallel evalFn grid = optimize_sequential evalFn grid := by
    unfold optimize_parallel optimize_sequential collectOutcomes
    rw [List.foldl_map]
  exact ⟨h, by simp [optimize_ranked, optimize_run, h]⟩

/-- Everything the collection loop adds beyond its accumulator passed
the pruning guards. -/
lemma mem_collectValid {cap2 : ℕ} :
    ∀ (l acc : List ParamSet) (p : ParamSet), p ∈ collectValid cap2 l acc →
      p ∈ acc ∨ validCombo p = true := by
  intro l
  induction l with
  | nil => exact fun acc p hp => Or.inl hp
  | cons q rest ih =>
    intro acc p hp
    unfold collectValid at hp
    by_cases hq : validCombo q = true
    · rw [if_pos hq] at hp
      by_cases hc : cap2 ≤ (acc ++ [q]).length
      · rw [if_pos hc] at hp
        rcases List.mem_append.mp hp with h | h
        · exact Or.inl h
        · simp only [List.mem_singleton] at h
          subst h
          exact Or.inr hq
      · rw [if_neg hc] at hp
        rcases ih (acc ++ [q]) p hp with h | h
        · rcases List.mem_append.mp h with h1 | h1
          · exact Or.inl h1
          · simp only [List.mem_singleton] at h1
            subst h1
            exact Or.inr hq
        · exact Or.inr h
    · rw [if_neg hq] at hp
      exact ih acc p hp

/-- Claim C4: every parameter set emitted by the grid generator has its
ATR band strictly ordered whenever both bounds are set, and its RSI
floor strictly below 70 whenever set — for any input ranges, cap and
random sample. -/
theorem grid_pruning (R : GridRanges) (max_combos : ℕ) (sample_indices : List ℕ)
    (p : ParamSet) (hp : p ∈ generate_parameter_grid R max_combos sample_indices) :
    (∀ a b, p.atr_min = some a → p.atr_max = some b → a < b) ∧
    (∀ r, p.rsi_min = some r → r < 70) := by
  have hv : validCombo p = true := by
    unfold generate_parameter_grid at hp
    by_cases hlen : max_combos < (collectValid (max_combos * 2) (allCombos R) []).length
    · rw [if_pos hlen] at hp
      rcases List.mem_filterMap.mp hp with ⟨i, _, hi⟩
      rcases mem_collectValid _ _ p (List.getElem?_mem hi) with h | h
      · simp at h
      · exact h
    · rw [if_neg hlen] at hp
      rcases mem_collectValid _ _ p hp with h | h
      · simp at h
      · exact h
  unfold validCombo at hv
  rw [Bool.and_eq_true] at hv
  constructor
  · intro a b ha hb
    have h1 := hv.1
    rw [ha, hb] at h1
    simpa using h1
  · intro r hr
    have h2 := hv.2
    rw [hr] at h2
    simpa using h2

/-- Singleton ranges whose one combination passes the pruning guards. -/
def gridRangesOne : GridRanges :=
  { stop_loss_range := [2], take_profit_range := [3], max_hold_bars_range := [some 10],
    trend_conditions := [none], rsi_min_range := [some 55], adx_min_range := [none],
    atr_min_range := [some (1 / 2)], atr_max_range := [some 2],
    ema_proximity_range := [none], volume_ratio_range := [some 1] }

/-- The single combination generated from `gridRangesOne`. -/
def paramOne : ParamSet :=
  { stop_loss_atr := 2, take_profit_atr := 3, max_hold_bars := some 10,
    trend_condition := none, rsi_min := some 55, adx_min := none,
    atr_min := some (1 / 2), atr_max := some 2, ema_proximity := none,
    volume_min := some 1 }

/-- Concrete instance for `grid_pruning` at the single emitted
combination of `gridRangesOne`. -/
theorem grid_pruning_witness :
    paramOne ∈ generate_parameter_grid gridRangesOne 10 [] ∧
    (1 / 2 : ℚ) < 2 ∧ (55 : ℚ) < 70 :=
  ⟨by with_unfolding_all decide,
   (grid_pruning gridRangesOne 10 [] paramOne (by with_unfolding_all decide)).1
     (1 / 2) 2 rfl rfl,
   (grid_pruning gridRangesOne 10 [] paramOne (by with_unfolding_all decide)).2 55 rfl⟩

/-- The collection loop never shrinks its accumulator. -/
lemma collectValid_length_le {cap2 : ℕ} :
    ∀ (l acc : List ParamSet), acc.length ≤ (collectValid cap2 l acc).length := by
  intro l
  induction l with
  | nil => exact fun acc => le_refl _
  | cons q rest ih =>
    intro acc
    unfold collectValid
    by_cases hq : validCombo q = true
    · rw [if_pos hq]
      by_cases hc : cap2 ≤ (acc ++ [q]).length
      · rw [if_pos hc]
        simp
      · rw [if_neg hc]
        calc acc.length ≤ (acc ++ [q]).length := by simp
          _ ≤ _ := ih (acc ++ [q])
    · rw [if_neg hq]
      exact ih acc

/-- If some list element passes the pruning guards, the collection loop
returns a nonempty grid. -/
lemma collectValid_pos {cap2 : ℕ} :
    ∀ (l acc : List ParamSet), (∃ p ∈ l, validCombo p = true) →
      1 ≤ (collectValid cap2 l acc).length := by
  intro l
  induction l with
  | nil => rintro acc ⟨p, hp, -⟩; simp at hp
  | cons q rest ih =>
    rintro acc ⟨p, hp, hv⟩
    unfold collectValid
    by_cases hq : validCombo q = true
    · rw [if_pos hq]
      by_cases hc : cap2 ≤ (acc ++ [q]).length
      · rw [if_pos hc]
        simp
      · rw [if_neg hc]
        calc (1 : ℕ) ≤ (acc ++ [q]).length := by simp
          _ ≤ _ := collectValid_length_le rest (acc ++ [q])
    · rw [if_neg hq]
      rcases List.mem_cons.mp hp with rfl | hp1
      · exact absurd hv hq
      · exact ih acc ⟨p, hp1, hv⟩

/-- Claim C8, amended: the grid is nonempty as soon as one combination
of the Cartesian product passes the two pruning guards, the cap is
positive, and — when the random down-sampling triggers — the sample has
the size and index bounds `np.random.choice` guarantees.  (The original
claim fails when every combination is pruned; see the
counterexample.) -/
theorem grid_nonempty (R : GridRanges) (max_combos : ℕ) (sample_indices : List ℕ)
    (hvalid : ∃ p ∈ allCombos R, validCombo p = true)
    (hcap : 1 ≤ max_combos)
    (hsample : max_combos < (collectValid (max_combos * 2) (allCombos R) []).length →
      sample_indices.length = max_combos ∧
        ∀ i ∈ sample_indices,
          i < (collectValid (max_combos * 2) (allCombos R) []).length) :
    generate_parameter_grid R max_combos sample_indices ≠ [] := by
  have hpos : 1 ≤ (collectValid (max_combos * 2) (allCombos R) []).length :=
    collectValid_pos _ _ hvalid
  unfold generate_parameter_grid
  by_cases hlen : max_combos < (collectValid (max_combos * 2) (allCombos R) []).length
  · rw [if_pos hlen]
    rcases hsample hlen with ⟨hslen, hsidx⟩
    rcases hs : sample_indices with _ | ⟨i, rest⟩
    · rw [hs] at hslen
      simp at hslen
      omega
    · intro hnil
      rw [List.filterMap_eq_nil_iff] at hnil
      have hi := hsidx i (by rw [hs]; simp)
      have hnone := hnil i (by simp)
      rw [List.getElem?_eq_getElem hi] at hnone
      exact Option.noConfusion hnone
  · rw [if_neg hlen]
    intro hnil
    rw [hnil] at hpos
    simp at hpos

/-- Concrete instance for `grid_nonempty` at `gridRangesOne` with cap
1: the generator returns a nonempty grid. -/
theorem grid_nonempty_witness :
    generate_parameter_grid gridRangesOne 1 [] ≠ [] :=
  grid_nonempty gridRangesOne 1 [] (by with_unfolding_all decide) (by decide)
    (by with_unfolding_all decide)

/-- Singleton ranges whose one combination is pruned by the RSI guard
(`rsi_min = 70`). -/
def gridRangesPruned : GridRanges :=
  { stop_loss_range := [2], take_profit_range := [3], max_hold_bars_range := [none],
    trend_conditions := [none], rsi_min_range := [some 70], adx_min_range := [none],
    atr_min_range := [none], atr_max_range := [none], ema_proximity_range := [none],
    volume_ratio_range := [none] }

/-- Claim C8 counterexample: for `gridRangesPruned` every input range is
nonempty and the Cartesian product holds a combination, yet the
generator returns the empty list, because its single combination is
pruned by the `rsi_min >= 70` guard. -/
theorem grid_nonempty_counterexample :
    gridRangesPruned.stop_loss_range ≠ [] ∧
    gridRangesPruned.take_profit_range ≠ [] ∧
    gridRangesPruned.max_hold_bars_range ≠ [] ∧
    gridRangesPruned.trend_conditions ≠ [] ∧
    gridRangesPruned.rsi_min_range ≠ [] ∧
    gridRangesPruned.adx_min_range ≠ [] ∧
    gridRangesPruned.atr_min_range ≠ [] ∧
    gridRangesPruned.atr_max_range ≠ [] ∧
    gridRangesPruned.ema_proximity_range ≠ [] ∧
    gridRangesPruned.volume_ratio_range ≠ [] ∧
    allCombos gridRangesPruned ≠ [] ∧
    generate_parameter_grid gridRangesPruned 10 [] = [] := by
  with_unfolding_all decide

/-- Characterization of the exits `check_exit` can fire: reason and
price always come paired as time exit at the bar close, stop-loss exit
at the stop level, or take-profit exit at the target level. -/
lemma check_exit_spec (cfg : EngineConfig) (bar : Bar) (idx : ℕ) (u : OpenTrade)
    (reason : ExitReason) (price : ℚ)
    (h : (check_exit cfg bar idx u).1 = some (reason, price)) :
    (reason = .time_exit ∧ price = bar.close) ∨
    (reason = .stop_loss ∧ price = u.stop_loss) ∨
    (reason = .take_profit ∧ price = u.take_profit) := by
  unfold check_exit at h
  by_cases htime : timeExitHit cfg.max_hold_bars (idx - u.entry_idx) = true
  · rw [if_pos htime] at h
    simp at h
    exact Or.inl ⟨h.1.symm, h.2.symm⟩
  · rw [if_neg htime] at h
    cases hd : cfg.direction <;> rw [hd] at h <;>
      split_ifs at h <;> simp at h <;>
      rcases h with ⟨h1, h2⟩ <;> subst h1 <;> subst h2 <;> simp

/-- Every trade in the state after one `step` was already closed before,
or was the open trade closed by `check_exit` on this bar. -/
lemma step_trades_cases (cfg : EngineConfig) (bar : Bar) (sig : Bool) (idx : ℕ)
    (s : EngineState) (t : ClosedTrade) (ht : t ∈ (step cfg bar sig idx s).trades) :
    t ∈ s.trades ∨
      ∃ u reason price, s.open_trade = some u ∧
        (check_exit cfg bar idx u).1 = some (reason, price) ∧
        t = close_trade cfg u idx reason price := by
  rcases hso : s.open_trade with _ | u
  · left
    simp only [step, hso] at ht
    cases sig <;> simpa using ht
  · rcases hce : check_exit cfg bar idx u with ⟨o, ns⟩
    rcases o with _ | ⟨reason, price⟩
    · left
      simp only [step, hso, hce] at ht
      simpa using ht
    · simp only [step, hso, hce] at ht
      have ht' : t ∈ s.trades ∨ t = close_trade cfg u idx reason price := by
        cases sig <;> simpa using ht
      rcases ht' with h | h
      · exact Or.inl h
      · exact Or.inr ⟨u, reason, price, rfl, by rw [hce], h⟩

/-- The position open after one `step` was opened on this bar or was
already open before (with at most the stop level changed). -/
lemma step_open_cases (cfg : EngineConfig) (bar : Bar) (sig : Bool) (idx : ℕ)
    (s : EngineState) (v : OpenTrade) (h : (step cfg bar sig idx s).open_trade = some v) :
    v.entry_idx = idx ∨ ∃ u, s.open_trade = some u ∧ v.entry_idx = u.entry_idx := by
  rcases hso : s.open_trade with _ | u
  · simp only [step, hso] at h
    cases sig <;> simp [hso] at h
    left
    rw [← h]
    simp [open_at]
  · rcases hce : check_exit cfg bar idx u with ⟨o, ns⟩
    rcases o with _ | ⟨reason, price⟩
    · simp only [step, hso, hce] at h
      simp at h
      right
      exact ⟨u, rfl, by rw [← h]⟩
    · simp only [step, hso, hce] at h
      cases sig <;> simp at h
      left
      rw [← h]
      simp [open_at]

/-- Invariant of the main loop: every closed trade has its entry at or
before its exit, its exit strictly below the number of bars processed,
and a strict entry/exit inequality since no loop exit carries reason
`end_of_data`; every open position was entered strictly before the next
bar to process. -/
lemma runLoop_index_inv (cfg : EngineConfig) :
    ∀ (bs : List Bar) (gs : List Bool) (idx : ℕ) (s : EngineState),
      (∀ t ∈ s.trades,
        t.entry_idx ≤ t.exit_idx ∧ t.exit_idx < idx ∧
          (t.exit_reason ≠ .end_of_data → t.entry_idx < t.exit_idx)) →
      (∀ u, s.open_trade = some u → u.entry_idx < idx) →
      (∀ t ∈ (runLoop cfg bs gs idx s).trades,
        t.entry_idx ≤ t.exit_idx ∧ t.exit_idx < idx + bs.length ∧
          (t.exit_reason ≠ .end_of_data → t.entry_idx < t.exit_idx)) ∧
      (∀ u, (runLoop cfg bs gs idx s).open_trade = some u →
        u.entry_idx < idx + bs.length) := by
  intro bs
  induction bs with
  | nil =>
    intro gs idx s h1 h2
    constructor
    · intro t ht
      have h := h1 t (by simpa [runLoop] using ht)
      exact ⟨h.1, by omega, h.2.2⟩
    · intro u hu
      have := h2 u (by simpa [runLoop] using hu)
      omega
  | cons b bs ih =>
    intro gs idx s h1 h2
    cases gs with
    | nil =>
      constructor
      · intro t ht
        have h := h1 t (by simpa [runLoop] using ht)
        refine ⟨h.1, ?_, h.2.2⟩
        have := h.2.1
        simp only [List.length_cons]
        omega
      · intro u hu
        have := h2 u (by simpa [runLoop] using hu)
        simp only [List.length_cons]
        omega
    | cons g gs =>
      have hstep1 : ∀ t ∈ (step cfg b g idx s).trades,
          t.entry_idx ≤ t.exit_idx ∧ t.exit_idx < idx + 1 ∧
            (t.exit_reason ≠ .end_of_data → t.entry_idx < t.exit_idx) := by
        intro t ht
        rcases step_trades_cases cfg b g idx s t ht with h | ⟨u, reason, price, hso, hce, rfl⟩
        · have h' := h1 t h
          exact ⟨h'.1, by omega, h'.2.2⟩
        · have hu := h2 u hso
          simp only [close_trade]
          exact ⟨by omega, by omega, fun _ => hu⟩
      have hstep2 : ∀ u, (step cfg b g idx s).open_trade = some u →
          u.entry_idx < idx + 1 := by
        intro u hu
        rcases step_open_cases cfg b g idx s u hu with h | ⟨v, hv, he⟩
        · omega
        · have := h2 v hv
          omega
      have hmain := ih gs (idx + 1) (step cfg b g idx s) hstep1 hstep2
      constructor
      · intro t ht
        have h := hmain.1 t (by simpa [runLoop] using ht)
        refine ⟨h.1, ?_, h.2.2⟩
        have := h.2.1
        simp only [List.length_cons]
        omega
      · intro u hu
        have := hmain.2 u (by simpa [runLoop] using hu)
        simp only [List.length_cons]
        omega

/-- Claim C2, amended: for every closed trade of a run,
`entry_idx ≤ exit_idx` and `exit_idx` is at most the last bar index; the
strict inequality `entry_idx < exit_idx` holds for every exit reason
other than `end_of_data`.  (The original strict claim fails for a trade
entered on the last bar and force-closed there; see the
counterexample.) -/
theorem trade_index_invariant (cfg : EngineConfig) (bars : List Bar) (signals : List Bool) :
    ∀ t ∈ run cfg bars signals,
      t.entry_idx ≤ t.exit_idx ∧ t.exit_idx + 1 ≤ bars.length ∧
        (t.exit_reason ≠ .end_of_data → t.entry_idx < t.exit_idx) := by
  intro t ht
  have hmain := runLoop_index_inv cfg bars signals 0 { trades := [], open_trade := none }
    (by simp) (by simp)
  rcases hso : (runLoop cfg bars signals 0 { trades := [], open_trade := none }).open_trade
    with _ | u <;> rcases hl : bars.getLast? with _ | lb <;>
    simp only [run, hso, hl] at ht
  · have h := hmain.1 t ht
    exact ⟨h.1, by have := h.2.1; omega, h.2.2⟩
  · have h := hmain.1 t ht
    exact ⟨h.1, by have := h.2.1; omega, h.2.2⟩
  · have h := hmain.1 t ht
    exact ⟨h.1, by have := h.2.1; omega, h.2.2⟩
  · rcases List.mem_append.mp ht with h | h
    · have h' := hmain.1 t h
      exact ⟨h'.1, by have := h'.2.1; omega, h'.2.2⟩
    · have hlen : 0 < bars.length := by
        rcases bars with _ | ⟨x, xs⟩
        · simp at hl
        · simp
      have hu := hmain.2 u hso
      simp only [List.mem_singleton] at h
      subst h
      simp only [close_trade]
      exact ⟨by omega, by omega, fun hne => absurd rfl hne⟩

/-- The long engine configuration used in concrete run instances. -/
def cfgLong : EngineConfig :=
  { direction := .long, stop_loss_atr := 2, take_profit_atr := 3,
    max_hold_bars := none, breakeven_at_tp1 := false }

/-- A flat one-bar series. -/
def barFlat : Bar := { high := 100, low := 100, close := 100, atr := 1 }

/-- Claim C2 counterexample: with an entry signal on the last (and only)
bar, the engine opens at index 0 and force-closes the trade at index 0
with reason `end_of_data`, so `entry_idx < exit_idx` fails. -/
theorem trade_index_counterexample :
    ¬∀ t ∈ run cfgLong [barFlat] [true], t.entry_idx < t.exit_idx := by
  with_unfolding_all decide

/-- A flat bar at the given price level with ATR 1. -/
def mkBar (p : ℚ) : Bar := { high := p, low := p, close := p, atr := 1 }

/-- A rising five-bar series. -/
def barsRise : List Bar := [mkBar 100, mkBar 101, mkBar 102, mkBar 103, mkBar 104]

/-- A single entry signal on the first bar of `barsRise`. -/
def sigsRise : List Bool := [true, false, false, false, false]

/-- Concrete instance for `trade_index_invariant`: the take-profit trade
of the rising series satisfies the index invariant. -/
theorem trade_index_invariant_witness :
    tradeWin.entry_idx ≤ tradeWin.exit_idx ∧ tradeWin.exit_idx + 1 ≤ barsRise.length ∧
      (tradeWin.exit_reason ≠ .end_of_data → tradeWin.entry_idx < tradeWin.exit_idx) :=
  trade_index_invariant cfgLong barsRise sigsRise tradeWin (by with_unfolding_all decide)

/-- Claim C10 as a predicate: the exit price of a closed trade is
determined by its exit reason — the stop level for a stop-loss exit, the
target level for a take-profit exit, and the close of the exit bar for a
time or end-of-data exit. -/
def PriceOK (bars : List Bar) (t : ClosedTrade) : Prop :=
  (t.exit_reason = .stop_loss → t.exit_price = t.stop_loss) ∧
  (t.exit_reason = .take_profit → t.exit_price = t.take_profit) ∧
  ((t.exit_reason = .time_exit ∨ t.exit_reason = .end_of_data) →
    ∃ b, bars[t.exit_idx]? = some b ∧ t.exit_price = b.close)

/-- Invariant of the main loop for exit prices. -/
lemma runLoop_price_inv (cfg : EngineConfig) (bars : List Bar) :
    ∀ (bs : List Bar) (gs : List Bool) (idx : ℕ) (s : EngineState),
      (∀ j, bs[j]? = bars[idx + j]?) →
      (∀ t ∈ s.trades, PriceOK bars t) →
      ∀ t ∈ (runLoop cfg bs gs idx s).trades, PriceOK bars t := by
  intro bs
  induction bs with
  | nil =>
    intro gs idx s hj hs t ht
    exact hs t (by simpa [runLoop] using ht)
  | cons b bs ih =>
    intro gs idx s hj hs t ht
    cases gs with
    | nil => exact hs t (by simpa [runLoop] using ht)
    | cons g gs =>
      refine ih gs (idx + 1) (step cfg b g idx s) ?_ ?_ t (by simpa [runLoop] using ht)
      · intro j
        have h := hj (j + 1)
        simp only [List.getElem?_cons_succ] at h
        rw [h]
        congr 1
        omega
      · intro t' ht'
        rcases step_trades_cases cfg b g idx s t' ht' with h | ⟨u, reason, price, hso, hce, rfl⟩
        · exact hs t' h
        · have hb : bars[idx]? = some b := by
            have h0 := hj 0
            simp at h0
            exact h0.symm
          rcases check_exit_spec cfg b idx u reason price hce
              with ⟨hr, hp⟩ | ⟨hr, hp⟩ | ⟨hr, hp⟩ <;>
            subst hr <;> subst hp
          · exact ⟨fun h => ExitReason.noConfusion h, fun h => ExitReason.noConfusion h,
              fun _ => ⟨b, hb, rfl⟩⟩
          · exact ⟨fun _ => rfl, fun h => ExitReason.noConfusion h,
              fun hor => by rcases hor with h | h <;> exact ExitReason.noConfusion h⟩
          · exact ⟨fun h => ExitReason.noConfusion h, fun _ => rfl,
              fun hor => by rcases hor with h | h <;> exact ExitReason.noConfusion h⟩

/-- Claim C10: for every trade closed by a run, the recorded exit price
is determined by the exit reason — stop level, target level, or the
closing bar close — never the bar high or low as such. -/
theorem exit_price_by_reason (cfg : EngineConfig) (bars : List Bar) (signals : List Bool) :
    ∀ t ∈ run cfg bars signals, PriceOK bars t := by
  intro t ht
  have hmain := runLoop_price_inv cfg bars bars signals 0 { trades := [], open_trade := none }
    (fun j => by simp) (by simp)
  rcases hso : (runLoop cfg bars signals 0 { trades := [], open_trade := none }).open_trade
    with _ | u <;> rcases hl : bars.getLast? with _ | lb <;>
    simp only [run, hso, hl] at ht
  · exact hmain t ht
  · exact hmain t ht
  · exact hmain t ht
  · rcases List.mem_append.mp ht with h | h
    · exact hmain t h
    · simp only [List.mem_singleton] at h
      subst h
      refine ⟨fun h => ExitReason.noConfusion h, fun h => ExitReason.noConfusion h,
        fun _ => ⟨lb, ?_, rfl⟩⟩
      show bars[bars.length - 1]? = some lb
      rw [← List.getLast?_eq_getElem?]
      exact hl

/-- Concrete instance for `exit_price_by_reason`: the take-profit trade
of the rising series exits exactly at its take-profit level. -/
theorem exit_price_by_reason_witness : PriceOK barsRise tradeWin :=
  exit_price_by_reason cfgLong barsRise sigsRise tradeWin (by with_unfolding_all decide)

end CommodityTrading
